import Mathlib

/-!  Verification of the AutoSub subtitle generator.

The repository is a small client around an external generative model:
generateSubtitles (src/services/geminiService.ts) checks the credential,
encodes the audio, composes a mode-specific prompt, invokes the model, and
normalizes and repairs the returned text into an SRT string; App
(src/App.tsx) is the session controller holding the audio source, the
subtitle document and the processing state, with AudioInput supplying the
file-selection and recording controls.

Everything below is a shallow embedding of that code: strings are lists of
characters, the two JS regex replaces are recursive scans with the same
left-to-right non-overlapping semantics, the anchor search mirrors the
backtracking regex, and the React component is a step function on an
explicit system state whose user events act through the rendered controls.
Definitions named after the claims' wording rather than the code (the spec
prefixed ones) exist only to compare the claims' words with the code's
behaviour.  -/


/-- The backtick character, written via its code point. -/
def tick : Char := Char.ofNat 0x60

/-- First replace of the normalize step in generateSubtitles
(src/services/geminiService.ts line 96): scan left to right, removing every
non-overlapping occurrence of three backticks followed by srt in any letter
case (the global case-insensitive regex replace); on a failed match the scan
advances one character, exactly as the JS regex engine does. -/
def stripSrtFences : List Char → List Char
  | c :: c2 :: c3 :: a :: b :: d :: rest =>
    if c = tick ∧ c2 = tick ∧ c3 = tick ∧
       a.toLower = 's' ∧ b.toLower = 'r' ∧ d.toLower = 't'
    then stripSrtFences rest
    else c :: stripSrtFences (c2 :: c3 :: a :: b :: d :: rest)
  | c :: cs => c :: stripSrtFences cs
  | [] => []

/-- Second replace of the normalize step: remove every non-overlapping run of
three backticks, scanning left to right (the global regex replace of three
backticks with the empty string). -/
def stripFence3 : List Char → List Char
  | c :: c2 :: c3 :: rest =>
    if c = tick ∧ c2 = tick ∧ c3 = tick then stripFence3 rest
    else c :: stripFence3 (c2 :: c3 :: rest)
  | c :: cs => c :: stripFence3 cs
  | [] => []

/-- Three consecutive backticks, the code-fence marker. -/
def fenceChars : List Char := [tick, tick, tick]

/-- No three consecutive backticks occur anywhere in the list: after the
normalize step this invariant holds of the output, which is what makes the
step idempotent. -/
def NoFence (l : List Char) : Prop := ¬ fenceChars <:+: l

/-- Whether the list starts with three backticks. -/
def startsFence : List Char → Bool
  | c :: c2 :: c3 :: _ => c = tick && c2 = tick && c3 = tick
  | _ => false

/-- JavaScript's whitespace class: the characters matched by the regex class \s
and removed by String.prototype.trim (WhiteSpace plus LineTerminator). -/
def isJsWhitespace (c : Char) : Bool :=
  let n := c.toNat
  n == 0x09 || n == 0x0A || n == 0x0B || n == 0x0C || n == 0x0D || n == 0x20 ||
  n == 0xA0 || n == 0x1680 || (0x2000 ≤ n && n ≤ 0x200A) || n == 0x2028 ||
  n == 0x2029 || n == 0x202F || n == 0x205F || n == 0x3000 || n == 0xFEFF

/-- String.prototype.trim: drop JS whitespace from both ends. -/
def trimChars (l : List Char) : List Char :=
  ((l.dropWhile isJsWhitespace).reverse.dropWhile isJsWhitespace).reverse

/-- The whole normalize step on character lists: strip the srt-tagged fences,
strip the remaining fences, then trim. -/
def normalizeChars (l : List Char) : List Char :=
  trimChars (stripFence3 (stripSrtFences l))

/-- Whether a timestamp shape (two digits, colon, two digits, colon, two
digits) is a prefix of the list: the regex fragment of HH:MM:SS. -/
def tsAt : List Char → Bool
  | a :: b :: x :: c :: d :: y :: e :: f :: _ =>
      a.isDigit && b.isDigit && x == ':' && c.isDigit && d.isDigit && y == ':' &&
      e.isDigit && f.isDigit
  | _ => false

/-- Whether some run of whitespace followed by a newline followed by a
timestamp shape is a prefix of the list: the regex fragment after the cue
index digits, with the same backtracking semantics as the JS engine. -/
def wsNlTs : List Char → Bool
  | [] => false
  | c :: cs => (c == '\n' && tsAt cs) || (isJsWhitespace c && wsNlTs cs)

/-- After at least one digit has been consumed: consume the remaining digits,
then require whitespace-newline-timestamp.  Because a digit is neither
whitespace nor a newline, consuming the maximal digit run is equivalent to the
backtracking regex. -/
def digitsThenTs : List Char → Bool
  | [] => false
  | c :: cs => if c.isDigit then digitsThenTs cs else wsNlTs (c :: cs)

/-- Whether the repair-pass anchor regex (digits, optional whitespace, a
newline, then HH:MM:SS) matches at the head of the list. -/
def anchorAt : List Char → Bool
  | c :: cs => c.isDigit && digitsThenTs cs
  | [] => false

/-- Index of the first position at which the anchor regex matches, as
String.prototype.match reports it, or none when there is no match. -/
def findAnchor : List Char → Option Nat
  | [] => none
  | c :: cs => if anchorAt (c :: cs) then some 0 else (findAnchor cs).map (· + 1)

/-- The guard of the repair pass: whether the text starts with a decimal
digit (the test of the anchored digit regex). -/
def startsWithDigitCheck : List Char → Bool
  | c :: _ => c.isDigit
  | [] => false

/-- The structural repair pass of generateSubtitles (lines 99-107): if the
cleaned text does not start with a digit, look for the first anchor match and
drop everything before it; otherwise, or when there is no match, return the
text unchanged. -/
def repairSrt (l : List Char) : List Char :=
  if startsWithDigitCheck l then l
  else
    match findAnchor l with
    | some i => l.drop i
    | none => l

/-- The four output modes of src/types.ts. -/
inductive TranslationMode where
  | TRANSCRIPT_ONLY
  | TO_ENGLISH
  | TO_CHINESE
  | BILINGUAL_CN_EN
deriving DecidableEq, Repr

/-- The literal label each enum member carries in src/types.ts. -/
def TranslationMode.label : TranslationMode → String
  | .TRANSCRIPT_ONLY => "保持原语言 (仅转录)"
  | .TO_ENGLISH => "翻译为英文 (English)"
  | .TO_CHINESE => "翻译为中文 (简体)"
  | .BILINGUAL_CN_EN => "双语字幕 (中文 + 英文)"

/-- The persona instruction sent as the system-level instruction. -/
def systemInstruction : String := "你是一位专业的视频字幕编辑器和翻译专家。"

/-- The common constraint block of the prompt, copied verbatim from the
template literal (lines 40-48 of src/services/geminiService.ts). -/
def commonRequirements : String :=
  "\n    任务:\n    1. 仔细聆听音频内容。\n    2. 生成符合标准 SubRip (.srt) 格式的字幕。\n    3. 确保时间轴极其精准 (格式: HH:MM:SS,mmm)。\n    4. **绝对不要**包含任何 Markdown 代码块格式（例如不要写 ```srt 或 ```）。直接输出纯文本内容。\n    5. **绝对不要**在 SRT 内容前后添加任何闲聊、解释或前言。\n    6. 根据语音停顿自然换行。\n  "

/-- The mode-specific clause selected by the switch on the mode
(lines 50-77), each copied verbatim from its template literal. -/
def specificInstruction : TranslationMode → String
  | .TRANSCRIPT_ONLY => "7. 逐字逐句转录音频中的原始内容，不要进行翻译。"
  | .TO_ENGLISH => "7. 将语音内容翻译成自然、高质量的英文（English）字幕。"
  | .TO_CHINESE => "7. 将语音内容翻译成自然、流畅的简体中文字幕。"
  | .BILINGUAL_CN_EN => "7. 提供双语字幕。\n      格式要求:\n      第一行：简体中文\n      第二行：English\n      \n      示例:\n      1\n      00:00:01,000 --> 00:00:04,000\n      你好，很高兴见到你。\n      Hello, nice to meet you.\n      "

/-- The composed instruction text: the common block, a newline, and the
mode-specific clause. -/
def promptText (mode : TranslationMode) : String :=
  commonRequirements ++ "\n" ++ specificInstruction mode

/-- An audio source: its bytes and its mime type (a Blob). -/
structure AudioBlob where
  bytes : List Nat
  mimeType : String
deriving DecidableEq, Repr

/-- The standard base64 alphabet. -/
def base64Alphabet : List Char :=
  "ABCDEFGHIJKLMNOPQRSTUVWXYZabcdefghijklmnopqrstuvwxyz0123456789+/".data

/-- The base64 character for a 6-bit value. -/
def b64char (n : Nat) : Char := base64Alphabet.getD n 'A'

/-- Standard base64 with padding: what the FileReader data-URL round trip in
fileToGenerativePart produces for the audio bytes. -/
def base64Encode : List Nat → List Char
  | [] => []
  | [a] => [b64char (a / 4), b64char (a % 4 * 16), '=', '=']
  | [a, b] => [b64char (a / 4), b64char (a % 4 * 16 + b / 16), b64char (b % 16 * 4), '=']
  | a :: b :: c :: rest =>
      b64char (a / 4) :: b64char (a % 4 * 16 + b / 16) ::
      b64char (b % 16 * 4 + c / 64) :: b64char (c % 64) :: base64Encode rest

/-- The inlineData part sent to the model: base64 data plus mime type. -/
structure InlinePart where
  data : List Char
  mimeType : String
deriving DecidableEq, Repr

/-- fileToGenerativePart (lines 7-24): base64-encode the blob and attach its
mime type, defaulting to audio/mp3 when the blob carries none. -/
def fileToGenerativePart (file : AudioBlob) : InlinePart :=
  { data := base64Encode file.bytes
    mimeType := if file.mimeType = "" then "audio/mp3" else file.mimeType }

/-- String.prototype.includes on character lists. -/
def hasSubstr : List Char → List Char → Bool
  | [], needle => needle.isEmpty
  | c :: t, needle => needle.isPrefixOf (c :: t) || hasSubstr t needle

/-- How the single model invocation can settle: a response carrying an
optional text, or a thrown transport error with a message. -/
inductive ModelOutcome where
  | success (text : Option String)
  | failure (message : String)
deriving DecidableEq, Repr

/-- The request payload handed to the transport. -/
structure GenRequest where
  model : String
  audioData : List Char
  audioMime : String
  prompt : String
  system : String
deriving DecidableEq, Repr

/-- Observable activity of one generateSubtitles call: whether the audio was
encoded and which requests went out on the wire. -/
structure GenTrace where
  encoded : Bool
  requests : List GenRequest
deriving DecidableEq, Repr

/-- The catch block (lines 111-125): map a thrown message onto the localized
taxonomy by substring inspection, passing unrecognized messages through. -/
def classifyError (msg : String) : String :=
  if hasSubstr msg.data "API key".data then "API Key 无效或未配置。"
  else if hasSubstr msg.data "SAFETY".data then "由于安全策略，内容被拦截。"
  else if hasSubstr msg.data "429".data then "请求过多，请稍后再试 (Quota Exceeded)。"
  else msg

/-- The normalize step on strings. -/
def normalizeResponse (s : String) : String :=
  String.mk (normalizeChars s.data)

/-- Normalize then repair: the full post-processing of a non-empty response
text, whose result generateSubtitles returns. -/
def processResponseText (s : String) : String :=
  String.mk (repairSrt (normalizeChars s.data))

/-- generateSubtitles (lines 26-126): fail on a missing credential before any
encoding or transport activity; otherwise encode, build the request, and
handle the model outcome: thrown errors and the empty response are classified
by the catch block, a non-empty text is normalized and repaired. -/
def generateSubtitles (apiKey : String) (audioFile : AudioBlob) (mode : TranslationMode)
    (outcome : ModelOutcome) : Except String String × GenTrace :=
  if apiKey = "" then
    (Except.error "未检测到 API Key。请检查您的环境配置。", ⟨false, []⟩)
  else
    let audioPart := fileToGenerativePart audioFile
    let req : GenRequest :=
      ⟨"gemini-2.5-flash", audioPart.data, audioPart.mimeType, promptText mode, systemInstruction⟩
    let trace : GenTrace := ⟨true, [req]⟩
    match outcome with
    | .failure msg => (Except.error (classifyError msg), trace)
    | .success none => (Except.error (classifyError "Gemini 未返回任何内容。"), trace)
    | .success (some t) =>
      if t = "" then (Except.error (classifyError "Gemini 未返回任何内容。"), trace)
      else (Except.ok (processResponseText t), trace)

/-- The component state of App (src/App.tsx): the audio source and its object
URL and name, the subtitle text, the processing flags and the selected mode. -/
structure AppState where
  audioFile : Option AudioBlob
  audioUrl : Option Nat
  audioName : String
  srtContent : String
  isProcessing : Bool
  progress : String
  errorMsg : Option String
  selectedMode : TranslationMode
deriving DecidableEq, Repr

/-- The useState initial values. -/
def initialAppState : AppState :=
  { audioFile := none, audioUrl := none, audioName := "", srtContent := ""
    isProcessing := false, progress := "", errorMsg := none
    selectedMode := .BILINGUAL_CN_EN }

/-- One in-flight generateSubtitles invocation. -/
structure PendingCall where
  audio : AudioBlob
  mode : TranslationMode
deriving DecidableEq, Repr

/-- The whole system: the component state, the in-flight invocations, the
object URLs created and not yet revoked, and the allocator for fresh URLs. -/
structure Sys where
  app : AppState
  pending : List PendingCall
  liveUrls : List Nat
  nextUrl : Nat
deriving DecidableEq, Repr

/-- The freshly mounted application. -/
def initialSys : Sys := ⟨initialAppState, [], [], 0⟩

/-- handleAudioSelected (lines 24-29): create an object URL for the file, set
the audio state, clear previous results.  The handler itself revokes
nothing. -/
def handleAudioSelected (s : Sys) (file : AudioBlob) (name : String) : Sys :=
  { s with
    app := { s.app with
             audioFile := some file
             audioUrl := some s.nextUrl
             audioName := name
             srtContent := ""
             isProcessing := false
             progress := ""
             errorMsg := none }
    liveUrls := s.liveUrls ++ [s.nextUrl]
    nextUrl := s.nextUrl + 1 }

/-- clearAudio (lines 31-36): revoke the current object URL if any, then
reset audio, subtitle and processing state. -/
def clearAudioStep (s : Sys) : Sys :=
  { s with
    app := { s.app with
             audioFile := none
             audioUrl := none
             audioName := ""
             srtContent := ""
             isProcessing := false
             progress := ""
             errorMsg := none }
    liveUrls := match s.app.audioUrl with
      | some u => s.liveUrls.erase u
      | none => s.liveUrls }

/-- handleProcess up to its await (lines 38-47): bail out without a file,
otherwise set the processing state and issue the request. -/
def handleProcessStep (s : Sys) : Sys :=
  match s.app.audioFile with
  | none => s
  | some f =>
    { s with
      app := { s.app with
               isProcessing := true
               progress := "正在上传并分析音频..."
               errorMsg := none }
      pending := s.pending ++ [⟨f, s.app.selectedMode⟩] }

/-- The continuation of handleProcess after its await (lines 48-61): on
success store the text unconditionally, on failure store the message (with
the fallback for an empty one).  Nothing checks whether the source was
cleared while the call was in flight. -/
def applyResponse (s : Sys) (rest : List PendingCall) (r : Except String String) : Sys :=
  match r with
  | .ok text =>
    { s with
      app := { s.app with
               srtContent := text
               isProcessing := false
               progress := "完成"
               errorMsg := none }
      pending := rest }
  | .error m =>
    { s with
      app := { s.app with
               isProcessing := false
               progress := ""
               errorMsg := some (if m = "" then "发生未知错误，请重试。" else m) }
      pending := rest }

/-- The render guard of the controls section (line 123 of src/App.tsx): a
file is selected, nothing is processing, no result is shown. -/
def generateButtonVisible (a : AppState) : Bool :=
  a.audioFile.isSome && !a.isProcessing && a.srtContent == ""

/-- The render guard of the retry button: the error section shows only when
an error message is set. -/
def retryButtonVisible (a : AppState) : Bool :=
  a.errorMsg.isSome

/-- The events the user or the network can deliver to the mounted app. -/
inductive UiEvent where
  | selectAudio (file : AudioBlob) (name : String)
  | clearAudio
  | setMode (m : TranslationMode)
  | pressGenerate
  | responseArrives (r : Except String String)

/-- One synchronous event step.  User events act only through rendered
controls (the file input only exists while no file is shown, the generate and
retry buttons only in their sections); a network result settles the oldest
in-flight call. -/
def step (s : Sys) : UiEvent → Sys
  | .selectAudio f n =>
      if s.app.audioName = "" ∧ n ≠ "" then handleAudioSelected s f n else s
  | .clearAudio =>
      if s.app.audioName ≠ "" then clearAudioStep s else s
  | .setMode m =>
      if generateButtonVisible s.app then
        { s with app := { s.app with selectedMode := m } }
      else s
  | .pressGenerate =>
      if generateButtonVisible s.app || retryButtonVisible s.app then handleProcessStep s
      else s
  | .responseArrives r =>
      match s.pending with
      | [] => s
      | _ :: rest => applyResponse s rest r

/-- States the mounted application can actually be in. -/
inductive Reachable : Sys → Prop where
  | init : Reachable initialSys
  | next (s : Sys) (e : UiEvent) : Reachable s → Reachable (step s e)

/-- The singleton list of the active object URL, if any. -/
def urlListOf : Option Nat → List Nat
  | some u => [u]
  | none => []

/-- The inductive invariant: the only unrevoked object URL is the active one,
a processing state never carries an error message, and an empty display name
means no active URL. -/
def SysInv (s : Sys) : Prop :=
  s.liveUrls = urlListOf s.app.audioUrl ∧
  (s.app.isProcessing = true → s.app.errorMsg = none) ∧
  (s.app.audioName = "" → s.app.audioUrl = none)

/-- Formalisation of the words of claim C2, not of the code: after the
digits, a newline must follow immediately (the claimed anchor has no optional
whitespace between the digits and the newline). -/
def specDigitsNl : List Char → Bool
  | [] => false
  | c :: cs => if c.isDigit then specDigitsNl cs else (c == '\n' && tsAt cs)

/-- The anchor as claim C2 words it: digits, then a newline, then an HH:MM:SS
timestamp prefix. -/
def specAnchorAt : List Char → Bool
  | c :: cs => c.isDigit && specDigitsNl cs
  | [] => false

/-- First match position of the claimed (strict) anchor. -/
def specFindAnchor : List Char → Option Nat
  | [] => none
  | c :: cs => if specAnchorAt (c :: cs) then some 0 else (specFindAnchor cs).map (· + 1)

/-- A normalized text with a code anchor (digits, a space, a newline, a
timestamp) but no claimed anchor (no newline directly after digits). -/
def c2CounterexampleInput : List Char := "a1 \n00:00:00".data

/-- Formalisation of the words of claim C8, not of the code: strip each fence
marker together with any immediately following language tag (a run of ASCII
letters).  Fuel-driven so it computes; the fuel is the input length. -/
def specStripAnyTagAux : Nat → List Char → List Char
  | 0, l => l
  | fuel + 1, c :: c2 :: c3 :: rest =>
    if c = tick ∧ c2 = tick ∧ c3 = tick then
      specStripAnyTagAux fuel (rest.dropWhile Char.isAlpha)
    else c :: specStripAnyTagAux fuel (c2 :: c3 :: rest)
  | fuel + 1, c :: cs => c :: specStripAnyTagAux fuel cs
  | _ + 1, [] => []

/-- Normalization as claim C8 words it: strip markers with their tags, then
trim. -/
def specNormalizeAnyTag (s : String) : String :=
  String.mk (trimChars (specStripAnyTagAux s.data.length s.data))

/-- A concrete reachable state in the middle of an invocation. -/
def c5WitnessSys : Sys :=
  step (step initialSys (UiEvent.selectAudio ⟨[1], "audio/mp3"⟩ "a.mp3"))
    UiEvent.pressGenerate

/-- A concrete reachable state with one active audio source. -/
def c9WitnessSys : Sys :=
  step initialSys (UiEvent.selectAudio ⟨[2, 3], "audio/wav"⟩ "b.wav")

/-- A subtitle document arriving after the source was cleared. -/
def c4Doc : String := "1\n00:00:01,000 --> 00:00:02,000\nHi"

/-- Select a file, start generating, then clear while the call is in
flight. -/
def c4AfterClear : Sys :=
  step (step (step initialSys (UiEvent.selectAudio ⟨[1], "audio/mp3"⟩ "a.mp3"))
    UiEvent.pressGenerate) UiEvent.clearAudio

lemma startsFence_false_of_head (h : c ≠ tick) : startsFence (c :: cs) = false := by
  match cs with
  | [] => rfl
  | [x] => rfl
  | x :: y :: zs => simp [startsFence, h]

lemma startsFence_false_of_second (h : c2 ≠ tick) :
    startsFence (c1 :: c2 :: cs) = false := by
  match cs with
  | [] => rfl
  | x :: zs => simp [startsFence, h]

lemma startsFence_false_of_third (h : c3 ≠ tick) :
    startsFence (c1 :: c2 :: c3 :: cs) = false := by
  simp [startsFence, h]

lemma fence_infix_of_startsFence (h : startsFence l = true) : fenceChars <:+: l := by
  match l with
  | c :: c2 :: c3 :: rest =>
    simp [startsFence] at h
    obtain ⟨⟨h1, h2⟩, h3⟩ := h
    subst h1; subst h2; subst h3
    exact ⟨[], rest, rfl⟩
  | [] => simp [startsFence] at h
  | [c] => simp [startsFence] at h
  | [c, c2] => simp [startsFence] at h

lemma startsFence_false_of_noFence (h : NoFence l) : startsFence l = false := by
  by_contra hb
  exact h (fence_infix_of_startsFence (by revert hb; cases startsFence l <;> simp))

lemma noFence_of_isInfix (h : l₁ <:+: l₂) (h2 : NoFence l₂) : NoFence l₁ :=
  fun hf => h2 (hf.trans h)

lemma noFence_tail (h : NoFence (c :: cs)) : NoFence cs :=
  fun hf => h (List.infix_cons hf)

lemma noFence_short (h : l.length < 3) : NoFence l := by
  intro hf
  have := hf.length_le
  simp [fenceChars] at this
  omega

lemma noFence_cons_of_ne (hc : c ≠ tick) (h : NoFence cs) : NoFence (c :: cs) := by
  intro hf
  rcases List.infix_cons_iff.mp hf with hp | ht
  · rw [fenceChars, List.cons_prefix_cons] at hp
    exact hc hp.1.symm
  · exact h ht

lemma noFence_cons_tick (hh : cs.head? ≠ some tick) (h : NoFence cs) :
    NoFence (tick :: cs) := by
  intro hf
  rcases List.infix_cons_iff.mp hf with hp | ht
  · rw [fenceChars, List.cons_prefix_cons] at hp
    rcases hp.2 with ⟨tl, htl⟩
    match cs, htl with
    | _, rfl => exact hh rfl
  · exact h ht

lemma noFence_cons_tick2 (hh : ds.head? ≠ some tick) (h : NoFence (tick :: ds)) :
    NoFence (tick :: tick :: ds) := by
  intro hf
  rcases List.infix_cons_iff.mp hf with hp | ht
  · rw [fenceChars, List.cons_prefix_cons] at hp
    rw [List.cons_prefix_cons] at hp
    rcases hp.2.2 with ⟨tl, htl⟩
    match ds, htl with
    | _, rfl => exact hh rfl
  · exact h ht

lemma stripFence3_cons (h : startsFence (c :: cs) = false) :
    stripFence3 (c :: cs) = c :: stripFence3 cs := by
  match cs with
  | [] => rfl
  | [x] => rfl
  | x :: y :: zs =>
    simp [startsFence] at h
    rw [stripFence3, if_neg]
    tauto

lemma stripFence3_fence : stripFence3 (tick :: tick :: tick :: rest) = stripFence3 rest := by
  rw [stripFence3, if_pos ⟨rfl, rfl, rfl⟩]

lemma stripFence3_singleton : stripFence3 [c] = [c] := rfl

lemma noFence_stripFence3 (l : List Char) : NoFence (stripFence3 l) := by
  induction l using stripFence3.induct with
  | case1 c c2 c3 rest hcond ih =>
    obtain ⟨h1, h2, h3⟩ := hcond
    subst h1; subst h2; subst h3
    rw [stripFence3_fence]
    exact ih
  | case2 c c2 c3 rest hcond ih =>
    by_cases hc : c = tick
    · subst hc
      have hcc : ¬(c2 = tick ∧ c3 = tick) := fun ⟨a, b⟩ => hcond ⟨rfl, a, b⟩
      by_cases hc2 : c2 = tick
      · subst hc2
        have hc3 : c3 ≠ tick := fun hb => hcc ⟨rfl, hb⟩
        rw [stripFence3_cons (startsFence_false_of_third hc3),
            stripFence3_cons (startsFence_false_of_second hc3),
            stripFence3_cons (startsFence_false_of_head hc3)]
        rw [stripFence3_cons (startsFence_false_of_second hc3),
            stripFence3_cons (startsFence_false_of_head hc3)] at ih
        exact noFence_cons_tick2 (by simp [hc3]) ih
      · rw [stripFence3_cons (startsFence_false_of_second hc2)]
        rw [stripFence3_cons (startsFence_false_of_head hc2)] at ih ⊢
        exact noFence_cons_tick (by simp [hc2]) ih
    · rw [stripFence3_cons (startsFence_false_of_head hc)]
      exact noFence_cons_of_ne hc ih
  | case3 c cs hshape ih =>
    match cs, hshape with
    | [], _ =>
      rw [show stripFence3 [c] = [c] from rfl]
      exact noFence_short (by simp)
    | [x], _ =>
      rw [show stripFence3 [c, x] = [c, x] from rfl]
      exact noFence_short (by simp)
    | x :: y :: zs, hshape => exact absurd rfl (hshape x y zs)
  | case4 =>
    rw [show stripFence3 [] = [] from rfl]
    exact noFence_short (by simp)

lemma stripFence3_of_noFence (h : NoFence l) : stripFence3 l = l := by
  induction l with
  | nil => rfl
  | cons c cs ih =>
    rw [stripFence3_cons (startsFence_false_of_noFence h), ih (noFence_tail h)]

lemma stripSrtFences_cons (h : startsFence (c :: cs) = false) :
    stripSrtFences (c :: cs) = c :: stripSrtFences cs := by
  match cs with
  | [] => rfl
  | [x] => rfl
  | [x, y] => rfl
  | [x, y, z] => rfl
  | [x, y, z, w] => rfl
  | x :: y :: z :: w :: v :: zs =>
    simp [startsFence] at h
    rw [stripSrtFences, if_neg]
    tauto

lemma stripSrtFences_of_noFence (h : NoFence l) : stripSrtFences l = l := by
  induction l with
  | nil => rfl
  | cons c cs ih =>
    rw [stripSrtFences_cons (startsFence_false_of_noFence h), ih (noFence_tail h)]

lemma dropWhile_head_not {p : Char → Bool} :
    ∀ {l c tl}, List.dropWhile p l = c :: tl → p c = false := by
  intro l
  induction l with
  | nil => intro c tl h; simp at h
  | cons a as ih =>
    intro c tl h
    rw [List.dropWhile_cons] at h
    by_cases hp : p a = true
    · rw [if_pos hp] at h; exact ih h
    · rw [if_neg hp] at h
      injection h with h1 h2
      subst h1
      cases hb : p a with
      | false => rfl
      | true => exact absurd hb hp

lemma dropWhile_eq_self_of_head {p : Char → Bool} {l : List Char}
    (h : ∀ c, l.head? = some c → p c = false) : List.dropWhile p l = l := by
  cases l with
  | nil => rfl
  | cons a as =>
    rw [List.dropWhile_cons, if_neg]
    simp [h a rfl]

lemma getLast?_of_suffix {v w : List Char} (h : v <:+ w) (hv : v ≠ []) :
    v.getLast? = w.getLast? := by
  rcases h with ⟨t, rfl⟩
  rw [List.getLast?_append]
  cases hl : v.getLast? with
  | none => exact absurd (List.getLast?_eq_none_iff.mp hl) hv
  | some c => simp

lemma trimChars_idem (l : List Char) : trimChars (trimChars l) = trimChars l := by
  have headlem : ∀ m : List Char, ∀ c,
      (List.dropWhile isJsWhitespace m).head? = some c → isJsWhitespace c = false := by
    intro m c hc
    cases hd : List.dropWhile isJsWhitespace m with
    | nil => rw [hd] at hc; simp at hc
    | cons a tl =>
      rw [hd] at hc
      simp at hc
      subst hc
      exact dropWhile_head_not hd
  set u := l.dropWhile isJsWhitespace with hu
  set v := u.reverse.dropWhile isJsWhitespace with hv
  have htl : trimChars l = v.reverse := rfl
  rw [htl]
  have hvlast : ∀ c, v.getLast? = some c → isJsWhitespace c = false := by
    intro c hc
    have hvne : v ≠ [] := by intro he; rw [he] at hc; simp at hc
    have h1 : v.getLast? = u.reverse.getLast? :=
      getLast?_of_suffix (hv ▸ List.dropWhile_suffix _) hvne
    rw [List.getLast?_reverse] at h1
    exact headlem l c (by rw [← hu, ← h1, hc])
  have hA : List.dropWhile isJsWhitespace v.reverse = v.reverse := by
    apply dropWhile_eq_self_of_head
    intro c hc
    rw [List.head?_reverse] at hc
    exact hvlast c hc
  have hB : List.dropWhile isJsWhitespace v = v := by
    apply dropWhile_eq_self_of_head
    intro c hc
    exact headlem u.reverse c (hv ▸ hc)
  rw [trimChars, hA, List.reverse_reverse, hB]

lemma trimChars_isInfix (l : List Char) : trimChars l <:+: l := by
  have h1 : l.dropWhile isJsWhitespace <:+ l := List.dropWhile_suffix _
  have h2 : (l.dropWhile isJsWhitespace).reverse.dropWhile isJsWhitespace <:+
      (l.dropWhile isJsWhitespace).reverse := List.dropWhile_suffix _
  have h3 : trimChars l <+: l.dropWhile isJsWhitespace := by
    apply List.reverse_suffix.mp
    simpa [trimChars] using h2
  exact (h3.isInfix).trans (h1.isInfix)

lemma noFence_normalizeChars (l : List Char) : NoFence (normalizeChars l) :=
  noFence_of_isInfix (trimChars_isInfix _) (noFence_stripFence3 _)

lemma normalizeChars_idem (l : List Char) :
    normalizeChars (normalizeChars l) = normalizeChars l := by
  have hnf : NoFence (normalizeChars l) := noFence_normalizeChars l
  show trimChars (stripFence3 (stripSrtFences (normalizeChars l))) = normalizeChars l
  rw [stripSrtFences_of_noFence hnf, stripFence3_of_noFence hnf]
  exact trimChars_idem _

lemma findAnchor_some_anchor :
    ∀ {l : List Char} {i : Nat}, findAnchor l = some i → anchorAt (l.drop i) = true := by
  intro l
  induction l with
  | nil => intro i h; simp [findAnchor] at h
  | cons c cs ih =>
    intro i h
    rw [findAnchor] at h
    by_cases ha : anchorAt (c :: cs) = true
    · rw [if_pos ha] at h
      injection h with h1
      subst h1
      simpa using ha
    · rw [if_neg ha, Option.map_eq_some'] at h
      rcases h with ⟨a, ha2, rfl⟩
      rw [List.drop_succ_cons]
      exact ih ha2

lemma findAnchor_some_least :
    ∀ {l : List Char} {i : Nat}, findAnchor l = some i →
      ∀ j < i, anchorAt (l.drop j) = false := by
  intro l
  induction l with
  | nil => intro i h; simp [findAnchor] at h
  | cons c cs ih =>
    intro i h j hj
    rw [findAnchor] at h
    by_cases ha : anchorAt (c :: cs) = true
    · rw [if_pos ha] at h
      injection h with h1
      omega
    · rw [if_neg ha, Option.map_eq_some'] at h
      rcases h with ⟨a, ha2, rfl⟩
      match j with
      | 0 =>
        simpa using ha
      | k + 1 =>
        rw [List.drop_succ_cons]
        exact ih ha2 k (by omega)

lemma findAnchor_none :
    ∀ {l : List Char}, findAnchor l = none → ∀ j, anchorAt (l.drop j) = false := by
  intro l
  induction l with
  | nil => intro _ j; cases j <;> rfl
  | cons c cs ih =>
    intro h j
    rw [findAnchor] at h
    by_cases ha : anchorAt (c :: cs) = true
    · rw [if_pos ha] at h; cases h
    · rw [if_neg ha] at h
      match j with
      | 0 => simpa using ha
      | k + 1 =>
        rw [List.drop_succ_cons]
        exact ih (by simpa using h) k

lemma repairSrt_suffix (l : List Char) : repairSrt l <:+ l := by
  rw [repairSrt]
  by_cases h : startsWithDigitCheck l = true
  · rw [if_pos h]
  · rw [if_neg h]
    cases hf : findAnchor l with
    | none => exact List.suffix_refl l
    | some i => exact List.drop_suffix i l

lemma reachable_inv {s : Sys} (h : Reachable s) : SysInv s := by
  induction h with
  | init => exact ⟨rfl, fun h => (Bool.false_ne_true h).elim, fun _ => rfl⟩
  | next t e hr ih =>
    obtain ⟨i1, i2, i3⟩ := ih
    cases e with
    | selectAudio f n =>
      rw [step]
      split
      · next hcond =>
        refine ⟨?_, fun _ => rfl, fun hn => absurd (show n = "" from hn) hcond.2⟩
        show t.liveUrls ++ [t.nextUrl] = urlListOf (some t.nextUrl)
        rw [i1, i3 hcond.1]
        rfl
      · exact ⟨i1, i2, i3⟩
    | clearAudio =>
      rw [step]
      split
      · refine ⟨?_, fun _ => rfl, fun _ => rfl⟩
        show (match t.app.audioUrl with
          | some u => t.liveUrls.erase u
          | none => t.liveUrls) = urlListOf none
        cases hurl : t.app.audioUrl with
        | none => rw [i1, hurl]
        | some u =>
          rw [i1, hurl]
          simp [urlListOf]
      · exact ⟨i1, i2, i3⟩
    | setMode m =>
      rw [step]
      split
      · exact ⟨i1, i2, i3⟩
      · exact ⟨i1, i2, i3⟩
    | pressGenerate =>
      rw [step]
      split
      · rw [handleProcessStep]
        cases hf : t.app.audioFile with
        | none => exact ⟨i1, i2, i3⟩
        | some f => exact ⟨i1, fun _ => rfl, i3⟩
      · exact ⟨i1, i2, i3⟩
    | responseArrives r =>
      rw [step]
      cases hp : t.pending with
      | nil => exact ⟨i1, i2, i3⟩
      | cons p rest =>
        cases r with
        | ok text => exact ⟨i1, fun _ => rfl, i3⟩
        | error m => exact ⟨i1, fun h => (Bool.false_ne_true h).elim, i3⟩

/-- Claim C1: with no API credential configured, generateSubtitles fails with
the configuration error for every audio source, mode and would-be model
outcome, and its trace shows that nothing was encoded and no transport
request was ever issued. -/
theorem c1_missing_key_fails_before_transport (audioFile : AudioBlob)
    (mode : TranslationMode) (outcome : ModelOutcome) :
    generateSubtitles "" audioFile mode outcome =
      (Except.error "未检测到 API Key。请检查您的环境配置。",
       { encoded := false, requests := [] }) := rfl

/-- Claim C2, counterexample: on a normalized text with no anchor in the
claim's sense (no digits immediately followed by a newline and a timestamp),
the repair pass is not the identity - the code's anchor regex allows optional
whitespace between the digits and the newline, so it matches and a prefix is
dropped.  The claim's third case (no anchor implies the text is returned
unmodified) is therefore false as stated. -/
theorem c2_anchor_counterexample :
    normalizeChars c2CounterexampleInput = c2CounterexampleInput ∧
    startsWithDigitCheck c2CounterexampleInput = false ∧
    specFindAnchor c2CounterexampleInput = none ∧
    repairSrt c2CounterexampleInput = "1 \n00:00:00".data ∧
    repairSrt c2CounterexampleInput ≠ c2CounterexampleInput := by decide

/-- Claim C2, amended: the repair pass is a total function; a text beginning
with a digit is returned unchanged; otherwise, when the anchor regex (digits,
then optional whitespace, then a newline, then an HH:MM:SS prefix) matches
somewhere, the result is the suffix starting at the first match; and when it
matches nowhere the text is returned unmodified. -/
theorem c2_repair_pass_amended (t : List Char) :
    (startsWithDigitCheck t = true → repairSrt t = t) ∧
    (startsWithDigitCheck t = false →
      ∀ i, findAnchor t = some i →
        repairSrt t = t.drop i ∧ anchorAt (t.drop i) = true ∧
        ∀ j < i, anchorAt (t.drop j) = false) ∧
    (startsWithDigitCheck t = false → findAnchor t = none →
      repairSrt t = t ∧ ∀ j, anchorAt (t.drop j) = false) := by
  refine ⟨fun h => by rw [repairSrt, if_pos h],
    fun h i hf => ⟨?_, findAnchor_some_anchor hf, findAnchor_some_least hf⟩,
    fun h hf => ⟨?_, findAnchor_none hf⟩⟩
  · rw [repairSrt, if_neg (by simp [h]), hf]
  · rw [repairSrt, if_neg (by simp [h]), hf]

/-- Claim C3: for every mode the composed instruction text is the common
constraint block verbatim plus exactly one mode-specific clause appended as
item 7, the clause being one of four literal variants selected by the mode,
and only the bilingual clause contains the worked example cue. -/
theorem c3_prompt_composition (mode : TranslationMode) :
    promptText mode = commonRequirements ++ "\n" ++ specificInstruction mode ∧
    hasSubstr (promptText mode).data commonRequirements.data = true ∧
    "7. ".data.isPrefixOf (specificInstruction mode).data = true ∧
    (specificInstruction TranslationMode.TRANSCRIPT_ONLY =
        "7. 逐字逐句转录音频中的原始内容，不要进行翻译。" ∧
     specificInstruction TranslationMode.TO_ENGLISH =
        "7. 将语音内容翻译成自然、高质量的英文（English）字幕。" ∧
     specificInstruction TranslationMode.TO_CHINESE =
        "7. 将语音内容翻译成自然、流畅的简体中文字幕。" ∧
     specificInstruction TranslationMode.BILINGUAL_CN_EN =
        "7. 提供双语字幕。\n      格式要求:\n      第一行：简体中文\n      第二行：English\n      \n      示例:\n      1\n      00:00:01,000 --> 00:00:04,000\n      你好，很高兴见到你。\n      Hello, nice to meet you.\n      ") ∧
    (hasSubstr (specificInstruction mode).data "00:00:01,000 --> 00:00:04,000".data = true ↔
      mode = TranslationMode.BILINGUAL_CN_EN) := by
  cases mode <;>
    exact ⟨rfl, by decide, by decide, ⟨rfl, rfl, rfl, rfl⟩, by decide⟩

/-- Claim C4, evidence of the code bug: clearing while processing does reach
the idle state immediately, but the invocation stays in flight and its later
response is not discarded - the continuation of handleProcess stores the
arrived document into the cleared session, where no audio source exists.  The
claim (and the spec) say such a response never sets a SubtitleDocument. -/
theorem c4_stale_response_not_discarded :
    c4AfterClear.app.audioFile = none ∧
    c4AfterClear.app.isProcessing = false ∧
    c4AfterClear.app.srtContent = "" ∧
    c4AfterClear.pending ≠ [] ∧
    (step c4AfterClear (UiEvent.responseArrives (Except.ok c4Doc))).app.srtContent = c4Doc ∧
    (step c4AfterClear (UiEvent.responseArrives (Except.ok c4Doc))).app.audioFile = none :=
  ⟨rfl, rfl, rfl, by decide, rfl, rfl⟩

/-- Claim C5: in every reachable state that is processing, pressing the
invoke control is a no-op - the state-driven render guards show neither the
generate button nor the retry button, so no second request is issued. -/
theorem c5_no_reentry_while_processing (s : Sys) (hr : Reachable s)
    (hp : s.app.isProcessing = true) :
    step s UiEvent.pressGenerate = s ∧
    (step s UiEvent.pressGenerate).pending = s.pending := by
  have hinv := reachable_inv hr
  have herr : s.app.errorMsg = none := hinv.2.1 hp
  have hgen : generateButtonVisible s.app = false := by
    simp [generateButtonVisible, hp]
  have hret : retryButtonVisible s.app = false := by
    simp [retryButtonVisible, herr]
  have hstep : step s UiEvent.pressGenerate = s := by
    rw [step, hgen, hret]
    simp
  exact ⟨hstep, by rw [hstep]⟩

/-- Witness for claim C5 at a concrete reachable processing state. -/
theorem c5_no_reentry_witness :
    step c5WitnessSys UiEvent.pressGenerate = c5WitnessSys ∧
    (step c5WitnessSys UiEvent.pressGenerate).pending = c5WitnessSys.pending :=
  c5_no_reentry_while_processing c5WitnessSys
    (Reachable.next _ _ (Reachable.next _ _ Reachable.init)) (by decide)

/-- Claim C6: when the model returns an absent or empty text,
generateSubtitles raises the empty-response error (whose message the catch
block passes through unchanged) and never returns a subtitle document. -/
theorem c6_empty_response_error (apiKey : String) (audioFile : AudioBlob)
    (mode : TranslationMode) (h : apiKey ≠ "") :
    (generateSubtitles apiKey audioFile mode (.success none)).1 =
        Except.error "Gemini 未返回任何内容。" ∧
    (generateSubtitles apiKey audioFile mode (.success (some ""))).1 =
        Except.error "Gemini 未返回任何内容。" ∧
    (∀ doc, (generateSubtitles apiKey audioFile mode (.success none)).1 ≠ Except.ok doc) ∧
    (∀ doc, (generateSubtitles apiKey audioFile mode (.success (some ""))).1 ≠ Except.ok doc) := by
  have hc : classifyError "Gemini 未返回任何内容。" = "Gemini 未返回任何内容。" := by decide
  have h1 : (generateSubtitles apiKey audioFile mode (.success none)).1 =
      Except.error (classifyError "Gemini 未返回任何内容。") := by
    rw [generateSubtitles, if_neg h]
  have h2 : (generateSubtitles apiKey audioFile mode (.success (some ""))).1 =
      Except.error (classifyError "Gemini 未返回任何内容。") := by
    rw [generateSubtitles, if_neg h]
    rfl
  rw [hc] at h1 h2
  refine ⟨h1, h2, fun doc hdoc => ?_, fun doc hdoc => ?_⟩
  · rw [h1] at hdoc; cases hdoc
  · rw [h2] at hdoc; cases hdoc

/-- Witness for claim C6 at a concrete key, audio source and mode. -/
theorem c6_empty_response_error_witness :
    (generateSubtitles "key" ⟨[1], "audio/mp3"⟩ .TO_CHINESE (.success none)).1 =
        Except.error "Gemini 未返回任何内容。" ∧
    (generateSubtitles "key" ⟨[1], "audio/mp3"⟩ .TO_CHINESE (.success (some ""))).1 =
        Except.error "Gemini 未返回任何内容。" ∧
    (∀ doc, (generateSubtitles "key" ⟨[1], "audio/mp3"⟩ .TO_CHINESE (.success none)).1 ≠
        Except.ok doc) ∧
    (∀ doc, (generateSubtitles "key" ⟨[1], "audio/mp3"⟩ .TO_CHINESE (.success (some ""))).1 ≠
        Except.ok doc) :=
  c6_empty_response_error "key" ⟨[1], "audio/mp3"⟩ .TO_CHINESE (by decide)

/-- Claim C7: the normalize step (fence stripping plus trim) is idempotent. -/
theorem c7_normalize_idempotent (s : String) :
    normalizeResponse (normalizeResponse s) = normalizeResponse s :=
  congrArg String.mk (normalizeChars_idem s.data)

/-- Claim C8, counterexample: normalize does not strip a fence marker
together with an arbitrary language tag.  On a fence followed by the tag
json, stripping markers-with-tags as the claim states would leave the empty
string, but the code only removes the backticks and leaves the tag text. -/
theorem c8_fence_tag_counterexample :
    specNormalizeAnyTag "```json" = "" ∧
    normalizeResponse "```json" = "json" ∧
    normalizeResponse "```json" ≠ specNormalizeAnyTag "```json" := by decide

/-- Claim C8, amended: normalize strips every srt-tagged fence (tag included,
any letter case) and every remaining bare fence marker - so no fence marker
survives in the result - then trims surrounding whitespace; a text without
backticks is only trimmed.  Language tags other than srt are not removed. -/
theorem c8_normalize_amended (s : String) :
    normalizeResponse s = String.mk (trimChars (stripFence3 (stripSrtFences s.data))) ∧
    NoFence (normalizeResponse s).data ∧
    ((∀ c ∈ s.data, c ≠ tick) → normalizeResponse s = String.mk (trimChars s.data)) := by
  refine ⟨rfl, noFence_normalizeChars s.data, fun hnb => ?_⟩
  have hnf : NoFence s.data := by
    intro hinf
    exact hnb tick (hinf.sublist.subset (by simp [fenceChars])) rfl
  show String.mk (trimChars (stripFence3 (stripSrtFences s.data))) = _
  rw [stripSrtFences_of_noFence hnf, stripFence3_of_noFence hnf]

/-- Claim C9: in every reachable state the only unrevoked object URL is the
one of the active source, so repeated selections never accumulate unreleased
references, and clearing releases the last one.  Selection while a source is
active cannot happen: the file input is only rendered when no current file is
shown, so a replacement always passes through clear, which revokes. -/
theorem c9_object_urls_released (s : Sys) (hr : Reachable s) :
    s.liveUrls = urlListOf s.app.audioUrl ∧
    (step s UiEvent.clearAudio).liveUrls = [] := by
  have hinv := reachable_inv hr
  refine ⟨hinv.1, ?_⟩
  rw [step]
  split
  · show (match s.app.audioUrl with
      | some u => s.liveUrls.erase u
      | none => s.liveUrls) = []
    cases hurl : s.app.audioUrl with
    | none =>
      rw [hinv.1, hurl]
      rfl
    | some u =>
      rw [hinv.1, hurl]
      simp [urlListOf]
  · next hcond =>
    rw [hinv.1, hinv.2.2 (not_not.mp hcond)]
    rfl

/-- Witness for claim C9 at a concrete reachable state holding one URL. -/
theorem c9_object_urls_released_witness :
    c9WitnessSys.liveUrls = urlListOf c9WitnessSys.app.audioUrl ∧
    (step c9WitnessSys UiEvent.clearAudio).liveUrls = [] :=
  c9_object_urls_released c9WitnessSys (Reachable.next _ _ Reachable.init)

/-- Claim C10: for a non-empty response text, the string generateSubtitles
returns is a contiguous suffix of the fence-stripped, trimmed response text:
the repair pass only ever deletes a leading prefix. -/
theorem c10_result_suffix_of_normalized (apiKey : String) (audioFile : AudioBlob)
    (mode : TranslationMode) (s : String) (hk : apiKey ≠ "") (hs : s ≠ "") :
    (generateSubtitles apiKey audioFile mode (.success (some s))).1 =
      Except.ok (processResponseText s) ∧
    (processResponseText s).data <:+ (normalizeResponse s).data := by
  constructor
  · rw [generateSubtitles, if_neg hk]
    show (if s = "" then _ else (Except.ok (processResponseText s), _)).1 = _
    rw [if_neg hs]
  · show repairSrt (normalizeChars s.data) <:+ normalizeChars s.data
    exact repairSrt_suffix _

/-- Witness for claim C10 at a concrete response text with a chatty
preamble. -/
theorem c10_result_suffix_witness :
    (generateSubtitles "key" ⟨[1], "audio/mp3"⟩ .TO_ENGLISH
        (.success (some "ok:\n1\n00:00:01,000 --> 00:00:02,000\nHi"))).1 =
      Except.ok (processResponseText "ok:\n1\n00:00:01,000 --> 00:00:02,000\nHi") ∧
    (processResponseText "ok:\n1\n00:00:01,000 --> 00:00:02,000\nHi").data <:+
      (normalizeResponse "ok:\n1\n00:00:01,000 --> 00:00:02,000\nHi").data :=
  c10_result_suffix_of_normalized "key" ⟨[1], "audio/mp3"⟩ .TO_ENGLISH
    "ok:\n1\n00:00:01,000 --> 00:00:02,000\nHi" (by decide) (by decide)
